/-
Verification of the write path of the dgraph worker (src/worker/mutation.go).

The definitions below are a shallow embedding of the Go source.  Pure logic
(validation, dispatch choice, partitioning, aggregation) is translated
directly; external collaborators (schema state, the value-conversion
routine, the storage engine, the shard-membership service) are passed in as
explicit environment records, so every function stays executable.  Where a
definition models code of the repository that lies outside the provided
source file (only the spec describes it), its doc comment says so.
-/
import Mathlib

/-! ## Data model (protos/pb subset used by worker/mutation.go) -/

/-- Value types of postings and schema (pb.Posting_ValueType / types.TypeID). -/
inductive TypeID
  | default
  | binary
  | int
  | float
  | bool
  | datetime
  | geo
  | uid
  | password
  | string
  | object
  | bigfloat
  | vfloat
deriving DecidableEq, Repr

/-- Modelled from the spec: the uid-vs-scalar shape distinction
(types.TypeID.IsScalar); every type other than uid is scalar. -/
def TypeID.isScalar : TypeID → Bool
  | .uid => false
  | _ => true

/-- Edge operation (pb.DirectedEdge_Op). -/
inductive EdgeOp
  | set
  | del
deriving DecidableEq, Repr

/-- Schema directive (pb.SchemaUpdate_Directive). -/
inductive Directive
  | none
  | index
  | reverse
  | delete
deriving DecidableEq, Repr

/-- A runtime value as handled by the types package (types.Val.Value).
Bytes are modelled as strings of bytes. -/
inductive EValue
  | bytes (s : String)
  | int (i : Int)
  | str (s : String)
deriving DecidableEq, Repr

/-- types.Val: a tagged runtime value. -/
structure Val where
  tid : TypeID
  value : EValue
deriving DecidableEq, Repr

/-- pb.DirectedEdge, the unit of one edge mutation. -/
structure DirectedEdge where
  attr : String := ""
  entity : Nat := 0
  value : String := ""
  valueType : TypeID := .default
  valueId : Nat := 0
  lang : String := ""
  op : EdgeOp := .set
deriving DecidableEq, Repr

/-- pb.SchemaUpdate, the declared shape of one predicate.  Zero values of
the Go struct are the field defaults. -/
structure SchemaUpdate where
  predicate : String := ""
  valueType : TypeID := .default
  list : Bool := false
  directive : Directive := .none
  tokenizer : List String := []
  count : Bool := false
  lang : Bool := false
  upsert : Bool := false
  unique : Bool := false
  /-- whether IndexSpecs (vector index specifications) is non-empty -/
  hasVectorSpec : Bool := false
deriving DecidableEq, Repr

/-- pb.TypeUpdate (only its identity matters for routing claims). -/
structure TypeUpdate where
  typeName : String := ""
deriving DecidableEq, Repr

/-- pb.Mutations, one per-shard (or client-level) batch. -/
structure Mutations where
  groupId : Nat := 0
  startTs : Nat := 0
  edges : List DirectedEdge := []
  schema : List SchemaUpdate := []
  types : List TypeUpdate := []
  dropOp : Nat := 0
  dropValue : String := ""
  metadata : Option Nat := none
deriving DecidableEq, Repr

/-- api.TxnContext subset filled by the worker. -/
structure TxnCtx where
  startTs : Nat := 0
  keys : List String := []
  preds : List String := []
deriving DecidableEq, Repr

/-! ## Errors -/

/-- Errors produced by the routing / network layer of mutation.go. -/
inductive MErr
  | nonExistentTablet
  | unservedTablet
  | other (msg : String)
deriving DecidableEq, Repr

/-- Validation / conversion / schema-check errors of mutation.go.  Each
constructor is one distinct errors.Errorf site; the string or argument it
carries is the predicate (or value) the message names. -/
inductive VErr
  | schemaMissing (attr : String)
  | neverReach
  | langMissing (pred : String)
  | inputScalarForUid (pred : String)
  | inputUidForScalar (pred : String)
  | inputNotVector (pred : String)
  | conversion (msg : String)
  | marshalFailed (msg : String)
  | permissionNotInt
  | permissionOutOfRange (p : Int)
  | typeAssertFailed
  | nilSchema
  | noPredicate
  | internalPredicate (pred : String)
  | tokenizerRequired
  | tokenizerWithoutIndex
  | indexOnUid (pred : String)
  | reverseOnNonUid (pred : String)
  | upsertNeedsIndex (pred : String)
  | cannotDropUpsert (pred : String)
  | cannotDropUniqueIndex (pred : String)
  | uniqueMissingIndex (pred : String)
  | uniqueUnsupportedType (pred : String)
  | passwordTypeChange
  | listToNonListWithData (pred : String)
  | uidScalarFlipWithData (pred : String)
deriving DecidableEq, Repr

deriving instance DecidableEq for Except

/-! ## Edge validation and application (runMutation, ValidateAndConvert) -/

/-- Modelled from the spec: x.Star, the wildcard value meaning
"all values". -/
def star : String := "_STAR_ALL"

/-- mutation.go isStarAll: the value bytes equal the star wildcard. -/
def isStarAll (v : String) : Bool := v == star

/-- mutation.go isDeletePredicateEdge: entity 0 with star value. -/
def isDeletePredicateEdge (edge : DirectedEdge) : Bool :=
  edge.entity == 0 && isStarAll edge.value

/-- Modelled from the spec: posting.TypeID — the storage type of an edge,
uid when the edge's object is a node reference, otherwise its declared
value type. -/
def postingTypeID (edge : DirectedEdge) : TypeID :=
  if edge.valueId ≠ 0 then .uid else edge.valueType

/-- External collaborators of runMutation/ValidateAndConvert: attribute
namespace parsing (x.ParseAttr), the ACL flag (x.WorkerConfig.AclEnabled),
the shared value-conversion routine (types.Convert) and binary marshalling
(types.Marshal into a BinaryID value). -/
structure WorkerEnv where
  parseAttr : String → String
  aclEnabled : Bool
  convert : Val → TypeID → Except String Val
  marshal : Val → Except String Val

/-- The tail of ValidateAndConvert after the type-check switch: convert the
edge value to the target schema type, marshal it, run the ACL permission
range check, and write the converted type and bytes back into the edge. -/
def convertAndCheck (env : WorkerEnv) (edge : DirectedEdge) (schemaType : TypeID) :
    Except VErr DirectedEdge :=
  let src : Val := { tid := edge.valueType, value := .bytes edge.value }
  match env.convert src schemaType with
  | .error e => .error (.conversion e)
  | .ok dst =>
    match env.marshal dst with
    | .error e => .error (.marshalFailed e)
    | .ok b =>
      let aclCheck : Except VErr Unit :=
        if env.aclEnabled ∧ env.parseAttr edge.attr = "dgraph.rule.permission" then
          match dst.value with
          | .int perm =>
            if perm < 0 ∨ 7 < perm then .error (.permissionOutOfRange perm) else .ok ()
          | _ => .error .permissionNotInt
        else .ok ()
      match aclCheck with
      | .error e => .error e
      | .ok _ =>
        match b.value with
        | .bytes bs => .ok { edge with valueType := schemaType, value := bs }
        | _ => .error .typeAssertFailed

/-- mutation.go ValidateAndConvert: checks an edge against the predicate's
schema, converting its value to the schema type when needed. -/
def ValidateAndConvert (env : WorkerEnv) (edge : DirectedEdge) (su : SchemaUpdate) :
    Except VErr DirectedEdge :=
  if isDeletePredicateEdge edge then .ok edge
  else if edge.valueType = .default ∧ isStarAll edge.value then .ok edge
  else
    let storageType := postingTypeID edge
    let schemaType := su.valueType
    if edge.lang ≠ "" ∧ su.lang = false then
      .error (.langMissing (env.parseAttr edge.attr))
    else if ¬schemaType.isScalar ∧ ¬storageType.isScalar then .ok edge
    else if ¬schemaType.isScalar ∧ storageType.isScalar then
      .error (.inputScalarForUid (env.parseAttr edge.attr))
    else if schemaType.isScalar ∧ ¬storageType.isScalar then
      .error (.inputUidForScalar (env.parseAttr edge.attr))
    else if schemaType = .vfloat then
      if ¬(storageType = .vfloat ∨ storageType = .string ∨ storageType = .default) then
        .error (.inputNotVector (env.parseAttr edge.attr))
      else convertAndCheck env edge schemaType
    else if storageType = schemaType ∧ schemaType ≠ .default then .ok edge
    else convertAndCheck env edge (if schemaType = .default then storageType else schemaType)

/-- Which read of the current posting state runMutation performs
(txn.GetScalarList, txn.Get, txn.GetFromDelta). -/
inductive GetStrategy
  | scalarList
  | full
  | fromDelta
deriving DecidableEq, Repr

/-- The getFn switch of runMutation: choose the read strategy for the
current posting list from the edge and its schema. -/
def chooseGetFn (edge : DirectedEdge) (su : SchemaUpdate) : GetStrategy :=
  if edge.lang = "" ∧ su.list = false then .scalarList
  else if edge.lang ≠ "" ∨ su.count then .full
  else if edge.op = .del then .full
  else .fromDelta

/-- Result of a successful runMutation: the (converted) edge is handed to
the posting list obtained with the chosen strategy
(plist.AddMutationWithIndex). -/
inductive MutOutcome
  | applied (strategy : GetStrategy) (edge : DirectedEdge)
deriving DecidableEq, Repr

/-- mutation.go runMutation: look up the schema (schemaGet is the result of
schema.State().Get, none when the predicate has no schema and then su is
the zero value), reject non-delete edges without schema, reject
delete-predicate wildcard edges, validate/convert, and apply with the
chosen read strategy. -/
def runMutation (env : WorkerEnv) (schemaGet : Option SchemaUpdate) (edge : DirectedEdge) :
    Except VErr MutOutcome :=
  let su := schemaGet.getD {}
  if edge.op ≠ .del ∧ schemaGet = none then .error (.schemaMissing edge.attr)
  else if isDeletePredicateEdge edge then .error .neverReach
  else
    match ValidateAndConvert env edge su with
    | .error e => .error e
    | .ok edge' => .ok (.applied (chooseGetFn edge' su) edge')

/-! ## Schema-update validation (checkSchema, hasEdges) -/

/-- math.MaxUint64, the timestamp checkSchema hands to hasEdges. -/
def maxUint64 : Nat := 2 ^ 64 - 1

/-- Modelled from the spec: posting.BitEmptyPosting, the user-meta bit
marking a posting list whose stored state is empty. -/
def bitEmptyPosting : Nat := 16

/-- One item of the storage engine's data-prefix iteration for a predicate
(badger item).  `contentEmpty` is ghost state recording whether the item's
deltas sum to an empty posting list; the scan in hasEdges never reads it —
that is exactly the documented imprecision of the source
(mutation.go:367-371). -/
structure StoreItem where
  attr : String
  version : Nat
  userMeta : Nat
  contentEmpty : Bool
deriving DecidableEq, Repr

/-- mutation.go hasEdges: the approximate non-empty-posting scan — iterate
the data prefix of the predicate in a transaction at startTs and report
true as soon as an item without the empty-posting bit is seen. -/
def hasEdges (attr : String) (startTs : Nat) (store : List StoreItem) : Bool :=
  store.any fun it =>
    it.attr == attr && decide (it.version ≤ startTs) && (it.userMeta &&& bitEmptyPosting == 0)

/-- mutation.go validTokenizer (inside validateSchemaForUnique). -/
def validTokenizer (toks : List String) : Bool :=
  toks.any fun v => v == "hash" || v == "exact" || v == "int"

/-- Modelled from the spec: schema.HasTokenizerOrVectorIndexSpec — the
update carries at least one tokenizer or a vector-index specification. -/
def hasTokenizerOrVectorIndexSpec (s : SchemaUpdate) : Bool :=
  !s.tokenizer.isEmpty || s.hasVectorSpec

/-- The value-type switch at the end of validateSchemaForUnique: @unique
is supported only on string (with a hash/exact index) and int (with an
index) predicates. -/
def uniqueTypeCheck (cur : SchemaUpdate) : Except VErr SchemaUpdate :=
  match cur.valueType with
  | .string =>
    if cur.tokenizer.isEmpty ∨ validTokenizer cur.tokenizer = false then
      .error (.uniqueMissingIndex cur.predicate)
    else .ok cur
  | .int =>
    if cur.tokenizer.isEmpty then .error (.uniqueMissingIndex cur.predicate) else .ok cur
  | _ => .error (.uniqueUnsupportedType cur.predicate)

/-- mutation.go validateSchemaForUnique: checks the @unique directive and
force-enables @upsert on the update; returns the (possibly updated)
current schema, mirroring the in-place mutation of the Go code. -/
def validateSchemaForUnique (prevSchema cur : SchemaUpdate) : Except VErr SchemaUpdate :=
  if prevSchema.predicate ≠ "" ∧ prevSchema.upsert ∧ cur.upsert = false then
    .error (.cannotDropUpsert cur.predicate)
  else if prevSchema.predicate ≠ "" ∧ prevSchema.unique ∧ validTokenizer cur.tokenizer = false then
    .error (.cannotDropUniqueIndex cur.predicate)
  else uniqueTypeCheck (if cur.upsert = false then { cur with upsert := true } else cur)

/-- External collaborators of checkSchema: attribute parsing, the reserved
internal-name check (x.IsInternalPredicate), the previously declared type
of the predicate (schema.State().TypeOf, none when no schema exists), its
list-ness (schema.State().IsList), the previous schema read for the unique
check (schema.State().Get, zero value when absent), and the local store
scanned by hasEdges. -/
structure SchemaCheckEnv where
  parseAttr : String → String
  isInternalPred : String → Bool
  prevType : Option TypeID
  prevIsList : Bool
  prevSchema : SchemaUpdate
  store : List StoreItem

/-- The switch of checkSchema over the previously declared type: the
password carve-out, the list-to-non-list data check for same-shape
changes, and the uid/scalar flip data check. -/
def schemaShapeCheck (env : SchemaCheckEnv) (t : TypeID) (s : SchemaUpdate) :
    Except VErr Unit :=
  if t.isScalar ∧ (t = .password ∨ s.valueType = .password) then
    if t ≠ s.valueType then .error .passwordTypeChange else .ok ()
  else if t.isScalar = s.valueType.isScalar then
    if env.prevIsList ∧ s.list = false ∧ hasEdges s.predicate maxUint64 env.store then
      .error (.listToNonListWithData (env.parseAttr s.predicate))
    else .ok ()
  else
    if hasEdges s.predicate maxUint64 env.store then
      .error (.uidScalarFlipWithData (env.parseAttr s.predicate))
    else .ok ()

/-- The tail of checkSchema once a previous schema type exists ("schema
was defined already"); with no previous type there is nothing to check. -/
def checkSchemaPrevious (env : SchemaCheckEnv) (s : SchemaUpdate) : Except VErr Unit :=
  match env.prevType with
  | none => .ok ()
  | some t => schemaShapeCheck env t s

/-- mutation.go checkSchema: validates one proposed schema update against
the current schema state and existing data. -/
def checkSchema (env : SchemaCheckEnv) (s? : Option SchemaUpdate) : Except VErr Unit :=
  match s? with
  | none => .error .nilSchema
  | some s =>
    if env.parseAttr s.predicate = "" then .error .noPredicate
    else if env.isInternalPred s.predicate then
      .error (.internalPredicate (env.parseAttr s.predicate))
    else if s.directive = .index ∧ hasTokenizerOrVectorIndexSpec s = false then
      .error .tokenizerRequired
    else if hasTokenizerOrVectorIndexSpec s ∧ s.directive ≠ .index then
      .error .tokenizerWithoutIndex
    else if s.valueType = .uid ∧ s.directive = .index then
      .error (.indexOnUid (env.parseAttr s.predicate))
    else if s.valueType ≠ .uid ∧ s.directive = .reverse then
      .error (.reverseOnNonUid (env.parseAttr s.predicate))
    else if s.upsert ∧ s.tokenizer.isEmpty ∧ s.unique = false then
      .error (.upsertNeedsIndex (env.parseAttr s.predicate))
    else
      match (if s.unique then validateSchemaForUnique env.prevSchema s else .ok s) with
      | .error e => .error e
      | .ok s => checkSchemaPrevious env s

/-! ## Mutation routing (populateMutationMap, MutateOverNetwork) -/

/-- The map from group id to per-shard mutations, as an association list
with unique keys (the Go map). -/
abbrev MutMap := List (Nat × Mutations)

/-- Go map read mm[gid]. -/
def mmGet (mm : MutMap) (g : Nat) : Option Mutations :=
  match mm with
  | [] => none
  | (g', mu) :: rest => if g' = g then some mu else mmGet rest g

/-- Go map write mm[gid] = mu. -/
def mmSet (mm : MutMap) (g : Nat) (mu : Mutations) : MutMap :=
  match mm with
  | [] => [(g, mu)]
  | (g', mu') :: rest => if g' = g then (g, mu) :: rest else (g', mu') :: mmSet rest g mu

/-- External collaborators of the router: shard ownership
(groups().BelongsTo), the known shards (groups().KnownGroups), and the
pre-partitioning type validation (verifyTypes, whose schema fetch is a
network round trip). -/
structure RouterEnv where
  belongsTo : String → Except MErr Nat
  knownGroups : List Nat
  verifyTypes : Mutations → Option MErr

/-- The edge loop body of populateMutationMap: route one edge to the
partition of the group owning its attribute. -/
def addEdgeToMap (env : RouterEnv) (meta : Option Nat) (mm : MutMap) (e : DirectedEdge) :
    Except MErr MutMap :=
  match env.belongsTo e.attr with
  | .error err => .error err
  | .ok gid =>
    let mu := (mmGet mm gid).getD { groupId := gid }
    .ok (mmSet mm gid { mu with edges := mu.edges ++ [e], metadata := meta })

/-- The schema loop body of populateMutationMap. -/
def addSchemaToMap (env : RouterEnv) (mm : MutMap) (s : SchemaUpdate) : Except MErr MutMap :=
  match env.belongsTo s.predicate with
  | .error err => .error err
  | .ok gid =>
    let mu := (mmGet mm gid).getD { groupId := gid }
    .ok (mmSet mm gid { mu with schema := mu.schema ++ [s] })

/-- The drop loop body: replicate the drop operation to one known group. -/
def addDropToMap (src : Mutations) (mm : MutMap) (g : Nat) : MutMap :=
  let mu := (mmGet mm g).getD { groupId := g }
  mmSet mm g { mu with dropOp := src.dropOp, dropValue := src.dropValue }

/-- The type loop body: replicate the type definitions to one known group. -/
def addTypesToMap (src : Mutations) (mm : MutMap) (g : Nat) : MutMap :=
  let mu := (mmGet mm g).getD { groupId := g }
  mmSet mm g { mu with types := src.types }

/-- The edge loop of populateMutationMap, returning early on a routing
error. -/
def addEdgesLoop (env : RouterEnv) (meta : Option Nat) (mm : MutMap) :
    List DirectedEdge → Except MErr MutMap
  | [] => .ok mm
  | e :: es =>
    match addEdgeToMap env meta mm e with
    | .error err => .error err
    | .ok mm1 => addEdgesLoop env meta mm1 es

/-- The schema loop of populateMutationMap, returning early on a routing
error. -/
def addSchemaLoop (env : RouterEnv) (mm : MutMap) :
    List SchemaUpdate → Except MErr MutMap
  | [] => .ok mm
  | s :: ss =>
    match addSchemaToMap env mm s with
    | .error err => .error err
    | .ok mm1 => addSchemaLoop env mm1 ss

/-- The drop phase of populateMutationMap: when the batch carries a drop
operation, replicate it to every known group. -/
def applyDropAll (env : RouterEnv) (src : Mutations) (mm : MutMap) : MutMap :=
  if src.dropOp > 0 then env.knownGroups.foldl (addDropToMap src) mm else mm

/-- The type phase of populateMutationMap: when the batch carries type
definitions, replicate them to every known group. -/
def applyTypesAll (env : RouterEnv) (src : Mutations) (mm : MutMap) : MutMap :=
  if src.types ≠ [] then env.knownGroups.foldl (addTypesToMap src) mm else mm

/-- mutation.go populateMutationMap: partition a batch by owning group;
drop operations and type updates go to every known group. -/
def populateMutationMap (env : RouterEnv) (src : Mutations) : Except MErr MutMap :=
  match addEdgesLoop env src.metadata [] src.edges with
  | .error e => .error e
  | .ok mm =>
    match addSchemaLoop env mm src.schema with
    | .error e => .error e
    | .ok mm => .ok (applyTypesAll env src (applyDropAll env src mm))

/-- One shard's reply (the res struct): an error and/or a transaction
context carrying the keys and predicates the shard touched. -/
structure Res where
  err : Option MErr := none
  ctx : Option TxnCtx := none
deriving DecidableEq, Repr

/-- One iteration of the fan-in loop of MutateOverNetwork: remember the
last error seen and append keys/preds of a reply that carries a context. -/
def aggStep (acc : TxnCtx × Option MErr) (r : Res) : TxnCtx × Option MErr :=
  let e := match r.err with
    | some err => some err
    | none => acc.2
  let t := match r.ctx with
    | some c =>
      { acc.1 with keys := acc.1.keys ++ c.keys, preds := acc.1.preds ++ c.preds }
    | none => acc.1
  (t, e)

/-- The fan-in loop of MutateOverNetwork over all shard replies. -/
def aggregateResults (tctx : TxnCtx) (rs : List Res) : TxnCtx × Option MErr :=
  rs.foldl aggStep (tctx, none)

/-- mutation.go MutateOverNetwork: verify types, partition the batch, fail
fast with errNonExistentTablet when a partition belongs to the sentinel
group 0, otherwise dispatch each partition (responder models proposeOrSend
for one shard) and aggregate the replies. -/
def MutateOverNetwork (env : RouterEnv) (responder : Nat → Mutations → Res) (m : Mutations) :
    TxnCtx × Option MErr :=
  let tctx : TxnCtx := { startTs := m.startTs }
  match env.verifyTypes m with
  | some e => (tctx, some e)
  | none =>
    match populateMutationMap env m with
    | .error e => (tctx, some e)
    | .ok mm =>
      if mm.any (fun p => p.1 == 0) then (tctx, some .nonExistentTablet)
      else
        let rs := mm.map fun p => responder p.1 { p.2 with startTs := m.startTs }
        aggregateResults tctx rs

/-! ## Schema rebuild, rollback and retry (runSchemaMutation fragments) -/

/-- The retry budget of undoSchemaUpdate (maxRetries in mutation.go). -/
def maxRetries : Nat := 10

/-- Modelled from the spec: the loop of x.RetryUntilSuccess — run the
operation, return on the first success, sleep the fixed backoff and retry
otherwise, and return the last error once the budget is spent.  `attempt i`
is the result of the i-th execution of the operation. -/
def retryAux (attempt : Nat → Except String Unit) : Nat → Nat → Except String Unit
  | 0, _ => .ok ()
  | n + 1, i =>
    match attempt i with
    | .ok _ => .ok ()
    | .error e =>
      match n with
      | 0 => .error e
      | m + 1 => retryAux attempt (m + 1) (i + 1)

/-- Modelled from the spec: x.RetryUntilSuccess with a budget of
`budget` attempts, starting at attempt 0. -/
def retryUntilSuccess (budget : Nat) (attempt : Nat → Except String Unit) :
    Except String Unit :=
  retryAux attempt budget 0

/-- In-memory and durable schema state touched by updateSchema and
schema.Load: the memory view (schema.State().Set), the pending mutation
schema (SetMutSchema/DeleteMutSchema) and the durable records committed
through the store transaction. -/
structure SchemaStore where
  mem : List (String × SchemaUpdate) := []
  mutMem : List (String × SchemaUpdate) := []
  disk : List (String × SchemaUpdate) := []
deriving DecidableEq, Repr

/-- Association-list write, replacing any previous binding of the key. -/
def assocSet (l : List (String × SchemaUpdate)) (k : String) (v : SchemaUpdate) :
    List (String × SchemaUpdate) :=
  match l with
  | [] => [(k, v)]
  | (k', v') :: rest => if k' = k then (k, v) :: rest else (k', v') :: assocSet rest k v

/-- Association-list delete. -/
def assocDel (l : List (String × SchemaUpdate)) (k : String) :
    List (String × SchemaUpdate) :=
  l.filter fun p => p.1 ≠ k

/-- mutation.go updateSchema: publish the schema in memory, clear the
pending mutation schema, and commit the record durably (the store
transaction's commit is modelled as succeeding). -/
def updateSchema (st : SchemaStore) (s : SchemaUpdate) : SchemaStore :=
  { mem := assocSet st.mem s.predicate s
    mutMem := assocDel st.mutMem s.predicate
    disk := assocSet st.disk s.predicate s }

/-- Outcome of undoSchemaUpdate: the in-memory schema was reloaded from
durable storage, or the retry budget was exhausted and the process
terminates fatally (glog.Fatalf). -/
inductive UndoOutcome
  | reloaded
  | fatalExit
deriving DecidableEq, Repr

/-- mutation.go undoSchemaUpdate: reload the predicate's schema from
durable storage with x.RetryUntilSuccess(maxRetries, 10ms); a still-failing
load after the budget is a fatal process fault.  `loadAttempts i` is the
result of the i-th schema.Load call. -/
def undoSchemaUpdate (loadAttempts : Nat → Except String Unit) : UndoOutcome :=
  match retryUntilSuccess maxRetries loadAttempts with
  | .ok _ => .reloaded
  | .error _ => .fatalExit

/-- The rebuild collaborators of the background index build: the result of
rebuild.BuildIndexes and the schema.Load attempts used on rollback. -/
structure RebuildEnv where
  buildIndexes : Except String Unit
  loadAttempts : Nat → Except String Unit

/-- mutation.go buildIndexesHelper: run the index rebuild and only on its
success commit the schema durably via updateSchema. -/
def buildIndexesHelper (env : RebuildEnv) (update : SchemaUpdate) (st : SchemaStore) :
    SchemaStore × Except String Unit :=
  match env.buildIndexes with
  | .error e => (st, .error e)
  | .ok _ => (updateSchema st update, .ok ())

/-- Final state of one background index build. -/
inductive BuildOutcome
  | committed
  | rolledBack
  | fatalExit
deriving DecidableEq, Repr

/-- mutation.go buildIndexes (the background task body, minus throttling
and the stop-indexing bookkeeping): on helper failure undo the schema
update. -/
def buildIndexes (env : RebuildEnv) (update : SchemaUpdate) (st : SchemaStore) :
    SchemaStore × BuildOutcome :=
  match buildIndexesHelper env update st with
  | (st', .ok _) => (st', .committed)
  | (st', .error _) =>
    (st',
      match undoSchemaUpdate env.loadAttempts with
      | .reloaded => .rolledBack
      | .fatalExit => .fatalExit)

/-! ## The process-wide indexing task slot (runSchemaMutation concurrency)

Modelled from the spec: waitForTask/startTaskAtTs/Closer.Done of the
consensus node are not part of the given source file.  The spec describes
them as a single exclusive "indexing" task slot per process: a schema-
mutation batch blocks until the slot is free, claims it, runs its index
rebuild, and releases the slot when the rebuild finishes.  Each process
below is one single-predicate schema-change batch. -/

/-- Phase of one schema-change batch: still blocked in waitForTask,
holding the slot and rebuilding, or finished. -/
inductive BatchPhase
  | waiting
  | rebuilding
  | done
deriving DecidableEq, Repr

/-- Process state: the owner of the indexing task slot (none when free)
and the phase of each of the n batches. -/
structure IndexingState (n : Nat) where
  slot : Option (Fin n)
  phase : Fin n → BatchPhase

/-- Initially the slot is free and every batch is blocked before its
schema work. -/
def initIndexing (n : Nat) : IndexingState n :=
  { slot := none, phase := fun _ => .waiting }

/-- Interleaving semantics of the batches: a waiting batch may claim the
slot only when it is free (waitForTask + startTaskAtTs), and a rebuilding
batch releases the slot when its rebuild completes (stopIndexing). -/
inductive IndexingStep {n : Nat} : IndexingState n → IndexingState n → Prop
  | acquire (s : IndexingState n) (p : Fin n) :
      s.slot = none → s.phase p = .waiting →
      IndexingStep s { slot := some p, phase := Function.update s.phase p .rebuilding }
  | finish (s : IndexingState n) (p : Fin n) :
      s.slot = some p → s.phase p = .rebuilding →
      IndexingStep s { slot := none, phase := Function.update s.phase p .done }

/-- States reachable from the initial state by any interleaving. -/
def IndexingReachable {n : Nat} (s : IndexingState n) : Prop :=
  Relation.ReflTransGen IndexingStep (initIndexing n) s

/-! ## Proofs -/

/-- Concrete rebuild environment: failing rebuild, always-failing reloads. -/
def rbEnvFail : RebuildEnv :=
  { buildIndexes := .error "boom", loadAttempts := fun _ => .error "nope" }

/-- Concrete rebuild environment: failing rebuild, third reload succeeds. -/
def rbEnvThird : RebuildEnv :=
  { buildIndexes := .error "boom"
    loadAttempts := fun i => if i = 2 then .ok () else .error "nope" }

/-- Strengthened invariant of the indexing slot: a batch observed in the
rebuilding phase is the current owner of the slot. -/
theorem indexing_rebuilding_owns_slot {n : Nat} (s : IndexingState n)
    (h : IndexingReachable s) : ∀ p, s.phase p = .rebuilding → s.slot = some p := by
  induction h with
  | refl =>
    intro p hp
    simp [initIndexing] at hp
  | tail _ hstep ih =>
    intro p hp
    cases hstep with
    | acquire q hslot hq =>
      by_cases hpq : p = q
      · simp [hpq]
      · simp only [Function.update_noteq hpq] at hp
        have hcontra := ih p hp
        rw [hslot] at hcontra
        exact absurd hcontra (by simp)
    | finish q hslot hq =>
      by_cases hpq : p = q
      · subst hpq
        simp [Function.update_same] at hp
      · simp only [Function.update_noteq hpq] at hp
        have hcontra := ih p hp
        rw [hslot] at hcontra
        exact absurd (Option.some.inj hcontra) (Ne.symm hpq)

/-- C1: at most one index rebuild is in progress per process at any
instant.  Every schema-change batch blocks on the process-wide indexing
task slot before its schema work (the acquire transition is the only way
into the rebuilding phase), and in every state reachable by any
interleaving of N single-predicate schema-change batches, no two batches
are in the rebuilding phase at the same sampled instant. -/
theorem C1_at_most_one_rebuild_in_progress {n : Nat} (s : IndexingState n)
    (h : IndexingReachable s) (p q : Fin n)
    (hp : s.phase p = .rebuilding) (hq : s.phase q = .rebuilding) : p = q := by
  have h1 := indexing_rebuilding_owns_slot s h p hp
  have h2 := indexing_rebuilding_owns_slot s h q hq
  rw [h1] at h2
  exact Option.some.inj h2

/-- Concrete instantiation of C1: after batch 0 of two concurrent batches
acquires the slot, the sampled state is reachable, batch 0 is observed
rebuilding, and any batch observed rebuilding in it is batch 0. -/
theorem C1_at_most_one_rebuild_in_progress_witness :
    IndexingReachable
      { slot := some 0, phase := Function.update (initIndexing 2).phase 0 .rebuilding } ∧
    Function.update (initIndexing 2).phase (0 : Fin 2) .rebuilding 0 = .rebuilding ∧
    (0 : Fin 2) = 0 := by
  have hr : IndexingReachable
      { slot := some 0, phase := Function.update (initIndexing 2).phase 0 .rebuilding } :=
    Relation.ReflTransGen.single (IndexingStep.acquire (initIndexing 2) 0 rfl rfl)
  refine ⟨hr, by simp, ?_⟩
  exact C1_at_most_one_rebuild_in_progress _ hr 0 0 (by simp) (by simp)

/-- One-step unfolding of the retry loop. -/
theorem retryAux_succ (f : Nat → Except String Unit) (n i : Nat) :
    retryAux f (n + 1) i =
      match f i with
      | .ok _ => .ok ()
      | .error e =>
        match n with
        | 0 => .error e
        | m + 1 => retryAux f (m + 1) (i + 1) := by
  rw [retryAux]

/-- The retry loop consults only the attempts inside its budget. -/
theorem retryAux_congr (f g : Nat → Except String Unit) :
    ∀ n i, (∀ j, j < n → f (i + j) = g (i + j)) → retryAux f n i = retryAux g n i := by
  intro n
  induction n with
  | zero => intro i _; rfl
  | succ m ih =>
    intro i h
    have h0 : f i = g i := by simpa using h 0 (Nat.succ_pos m)
    rw [retryAux_succ, retryAux_succ, h0]
    cases hgi : g i with
    | ok u => rfl
    | error e =>
      cases m with
      | zero => rfl
      | succ k =>
        exact ih (i + 1) fun j hj => by
          have e2 : i + 1 + j = i + (j + 1) := by omega
          rw [e2]
          exact h (j + 1) (by omega)

/-- If every attempt inside the budget fails, the retry loop fails. -/
theorem retryAux_error (f : Nat → Except String Unit) :
    ∀ n i, 0 < n → (∀ j, j < n → ∃ e, f (i + j) = .error e) →
      ∃ e, retryAux f n i = .error e := by
  intro n
  induction n with
  | zero => intro i h; omega
  | succ m ih =>
    intro i _ h
    obtain ⟨e0, he0⟩ := h 0 (Nat.succ_pos m)
    rw [show i + 0 = i by omega] at he0
    rw [retryAux_succ, he0]
    cases m with
    | zero => exact ⟨e0, rfl⟩
    | succ k =>
      exact ih (i + 1) (Nat.succ_pos k) fun j hj => by
        have e2 : i + 1 + j = i + (j + 1) := by omega
        rw [e2]
        exact h (j + 1) (by omega)

/-- If some attempt inside the budget succeeds, the retry loop succeeds. -/
theorem retryAux_ok (f : Nat → Except String Unit) :
    ∀ n i, (∃ j, j < n ∧ f (i + j) = .ok ()) → retryAux f n i = .ok () := by
  intro n
  induction n with
  | zero =>
    intro i h
    obtain ⟨j, hj, _⟩ := h
    omega
  | succ m ih =>
    intro i h
    rw [retryAux_succ]
    cases hfi : f i with
    | ok u => rfl
    | error e =>
      obtain ⟨j, hj, hok⟩ := h
      cases j with
      | zero =>
        rw [show i + 0 = i by omega, hfi] at hok
        exact absurd hok (by simp)
      | succ j' =>
        cases m with
        | zero => omega
        | succ k =>
          refine ih (i + 1) ⟨j', by omega, ?_⟩
          have e2 : i + 1 + j' = i + (j' + 1) := by omega
          rw [e2]
          exact hok

/-- C2: when the background index rebuild of a schema update fails, the
durable schema records are left untouched (the failed schema is never
committed to disk), the undo path depends only on the first
maxRetries = 10 schema.Load attempts (fixed retry budget), exhausting the
budget terminates the process fatally while a success inside the budget
rolls back cleanly; and only when the rebuild succeeds is the schema
record committed durably. -/
theorem C2_rebuild_failure_handling (env : RebuildEnv) (update : SchemaUpdate)
    (st : SchemaStore) :
    (∀ e, env.buildIndexes = .error e →
      (buildIndexes env update st).1 = st ∧
      ((∀ i, i < maxRetries → ∃ e2, env.loadAttempts i = .error e2) →
        (buildIndexes env update st).2 = .fatalExit) ∧
      ((∃ i, i < maxRetries ∧ env.loadAttempts i = .ok ()) →
        (buildIndexes env update st).2 = .rolledBack)) ∧
    (env.buildIndexes = .ok () →
      (buildIndexes env update st).1 = updateSchema st update ∧
      (buildIndexes env update st).2 = .committed) ∧
    (∀ f g : Nat → Except String Unit, (∀ i, i < maxRetries → f i = g i) →
      undoSchemaUpdate f = undoSchemaUpdate g) := by
  refine ⟨?_, ?_, ?_⟩
  · intro e he
    have hbh : buildIndexesHelper env update st = (st, .error e) := by
      simp [buildIndexesHelper, he]
    refine ⟨?_, ?_, ?_⟩
    · simp [buildIndexes, hbh]
    · intro hall
      obtain ⟨e2, he2⟩ := retryAux_error env.loadAttempts maxRetries 0 (by decide)
        fun j hj => by simpa using hall j hj
      simp [buildIndexes, hbh, undoSchemaUpdate, retryUntilSuccess, he2]
    · intro hsome
      obtain ⟨i, hi, hoki⟩ := hsome
      have hok := retryAux_ok env.loadAttempts maxRetries 0 ⟨i, hi, by simpa using hoki⟩
      simp [buildIndexes, hbh, undoSchemaUpdate, retryUntilSuccess, hok]
  · intro hok
    constructor <;> simp [buildIndexes, buildIndexesHelper, hok]
  · intro f g hfg
    have hc := retryAux_congr f g maxRetries 0 fun j hj => by simpa using hfg j hj
    simp [undoSchemaUpdate, retryUntilSuccess, hc]

/-- Concrete instantiation of C2: a failing rebuild with always-failing
schema reloads leaves the durable store untouched and is fatal; one whose
third reload succeeds rolls back. -/
theorem C2_rebuild_failure_handling_witness :
    (buildIndexes rbEnvFail { predicate := "p" } {}).1 = {} ∧
    (buildIndexes rbEnvFail { predicate := "p" } {}).2 = .fatalExit ∧
    (buildIndexes rbEnvThird { predicate := "p" } {}).2 = .rolledBack := by
  have h1 := C2_rebuild_failure_handling rbEnvFail { predicate := "p" } {}
  have h2 := C2_rebuild_failure_handling rbEnvThird { predicate := "p" } {}
  refine ⟨(h1.1 "boom" rfl).1, (h1.1 "boom" rfl).2.1 fun i _ => ⟨"nope", rfl⟩, ?_⟩
  exact (h2.1 "boom" rfl).2.2 ⟨2, by decide, by simp [rbEnvThird]⟩

/-- A concrete collaborator environment for the concrete evaluations:
identity namespace parsing, ACL off, identity conversion/marshalling. -/
def envId : WorkerEnv :=
  { parseAttr := id, aclEnabled := false
    convert := fun v _ => .ok v, marshal := fun v => .ok v }

/-- A delete edge of a scalar (non-list), language-free predicate. -/
def edgeDelScalar : DirectedEdge :=
  { attr := "p", entity := 1, value := "v", valueType := .string, valueId := 0
    lang := "", op := .del }

/-- A scalar non-list schema that carries a count index. -/
def suScalarCount : SchemaUpdate :=
  { predicate := "p", valueType := .string, list := false, count := true }

/-- C4 counterexample: a delete on a scalar language-free predicate whose
schema even has a count index is applied with the cheap scalar-only
retrieval, not the full posting-list read the claim requires for every
delete and every count-indexed predicate. -/
theorem C4_counterexample_scalar_delete :
    runMutation envId (some suScalarCount) edgeDelScalar =
      .ok (.applied .scalarList edgeDelScalar) ∧
    GetStrategy.scalarList ≠ GetStrategy.full := by
  constructor
  · decide
  · decide

/-- C4 (amended): the scalar case has priority — a language-free edge of a
non-list predicate always uses the scalar-only retrieval, even for deletes
and count-indexed predicates; an edge with a language tag always reads the
full posting list; a language-free edge of a list predicate reads the full
posting list when the predicate has a count index or the operation is a
delete; all remaining list mutations use the in-memory delta facade. -/
theorem C4_amended_read_strategy (edge : DirectedEdge) (su : SchemaUpdate) :
    (edge.lang = "" → su.list = false → chooseGetFn edge su = .scalarList) ∧
    (edge.lang ≠ "" → chooseGetFn edge su = .full) ∧
    (edge.lang = "" → su.list = true → (su.count = true ∨ edge.op = .del) →
      chooseGetFn edge su = .full) ∧
    (edge.lang = "" → su.list = true → su.count = false → edge.op ≠ .del →
      chooseGetFn edge su = .fromDelta) := by
  refine ⟨?_, ?_, ?_, ?_⟩
  · intro h1 h2
    simp [chooseGetFn, h1, h2]
  · intro h1
    simp [chooseGetFn, h1]
  · intro h1 h2 h3
    rcases h3 with h3 | h3
    · simp [chooseGetFn, h1, h2, h3]
    · by_cases hc : su.count
      · simp [chooseGetFn, h1, h2, hc]
      · simp [chooseGetFn, h1, h2, hc, h3]
  · intro h1 h2 h3 h4
    simp [chooseGetFn, h1, h2, h3, h4]

/-- Concrete instantiation of C4 (amended): a language-tagged edge reads
the full posting list, and a list-predicate delete reads the full posting
list. -/
theorem C4_amended_read_strategy_witness :
    chooseGetFn { lang := "de" } {} = .full ∧
    chooseGetFn { op := .del } { list := true } = .full := by
  constructor
  · exact (C4_amended_read_strategy { lang := "de" } {}).2.1 (by decide)
  · exact (C4_amended_read_strategy { op := .del } { list := true }).2.2.1 rfl rfl
      (Or.inr rfl)

/-- C10: runMutation requires a schema for every non-delete edge — its
absence is an immediate error and the edge is not applied — while a delete
edge proceeds without one (against the zero-value schema) and, when it is
no wildcard and passes validation, is applied. -/
theorem C10_schema_presence (env : WorkerEnv) (edge : DirectedEdge) :
    (edge.op ≠ .del → runMutation env none edge = .error (.schemaMissing edge.attr)) ∧
    (edge.op = .del → isDeletePredicateEdge edge = false →
      ∀ e2, ValidateAndConvert env edge {} = .ok e2 →
        runMutation env none edge = .ok (.applied (chooseGetFn e2 {}) e2)) := by
  constructor
  · intro h
    simp [runMutation, h]
  · intro hdel hwild e2 hv
    simp [runMutation, hdel, hwild, hv]

/-- Concrete instantiation of C10: a set edge without schema fails with
the schema-missing error; a delete edge without schema is applied. -/
theorem C10_schema_presence_witness :
    runMutation envId none { attr := "p", entity := 1, value := "v" } =
      .error (.schemaMissing "p") ∧
    runMutation envId none edgeDelScalar =
      .ok (.applied (chooseGetFn edgeDelScalar {}) edgeDelScalar) := by
  constructor
  · exact (C10_schema_presence envId { attr := "p", entity := 1, value := "v" }).1 (by decide)
  · exact (C10_schema_presence envId edgeDelScalar).2 rfl (by decide) edgeDelScalar (by decide)

/-- A language-tagged edge whose value is the star wildcard with unset
(default) value type, against an entity (no delete-predicate wildcard). -/
def edgeLangStar : DirectedEdge :=
  { attr := "p", entity := 1, value := star, valueType := .default, valueId := 0
    lang := "en", op := .del }

/-- A schema without language support. -/
def suNoLang : SchemaUpdate := { predicate := "p", valueType := .string }

/-- C8 counterexample: a language-tagged edge carrying the star wildcard
with unset value type passes validation against a schema without language
support (the star bypass precedes the language check) and is applied. -/
theorem C8_counterexample_star_bypass :
    ValidateAndConvert envId edgeLangStar suNoLang = .ok edgeLangStar ∧
    runMutation envId (some suNoLang) edgeLangStar =
      .ok (.applied .full edgeLangStar) := by
  constructor
  · decide
  · decide

/-- C8 (amended): a language-tagged edge validated against a schema
without language support fails with the validation error naming the
predicate and is not applied — unless the edge is a delete-predicate
wildcard or carries the star wildcard with unset (default) value type,
which bypass validation entirely. -/
theorem C8_amended_lang_required (env : WorkerEnv) (edge : DirectedEdge) (su : SchemaUpdate)
    (hw : isDeletePredicateEdge edge = false)
    (hs : ¬(edge.valueType = .default ∧ isStarAll edge.value = true))
    (hl : edge.lang ≠ "") (hsl : su.lang = false) :
    ValidateAndConvert env edge su = .error (.langMissing (env.parseAttr edge.attr)) ∧
    runMutation env (some su) edge = .error (.langMissing (env.parseAttr edge.attr)) := by
  have hval : ValidateAndConvert env edge su = .error (.langMissing (env.parseAttr edge.attr)) := by
    simp only [ValidateAndConvert]
    rw [if_neg (by simp [hw]), if_neg hs]
    simp [hl, hsl]
  refine ⟨hval, ?_⟩
  simp [runMutation, hw, hval]

/-- Concrete instantiation of C8 (amended): a regular language-tagged edge
against a schema lacking language support fails naming the predicate. -/
theorem C8_amended_lang_required_witness :
    ValidateAndConvert envId
      { attr := "p", entity := 1, value := "v", valueType := .string, lang := "en" }
      suNoLang = .error (.langMissing "p") := by
  exact (C8_amended_lang_required envId
    { attr := "p", entity := 1, value := "v", valueType := .string, lang := "en" }
    suNoLang (by decide) (by decide) (by decide) rfl).1

/-- C9: for an edge on the ACL permission predicate that goes through
value conversion to the int schema type, a converted integer outside
[0,7] is rejected with the range error (an error distinct from the
conversion/type-mismatch error), and a converted integer inside the range
is accepted with the converted bytes stored on the edge. -/
theorem C9_permission_range (env : WorkerEnv) (edge : DirectedEdge) (su : SchemaUpdate)
    (p : Int) (bval : Val) (bs : String)
    (hacl : env.aclEnabled = true)
    (hattr : env.parseAttr edge.attr = "dgraph.rule.permission")
    (hvid : edge.valueId = 0) (hvt : edge.valueType = .default)
    (hstar : isStarAll edge.value = false) (hlang : edge.lang = "")
    (hsu : su.valueType = .int)
    (hconv : env.convert { tid := .default, value := .bytes edge.value } .int =
      .ok { tid := .int, value := .int p })
    (hmar : env.marshal { tid := .int, value := .int p } = .ok bval)
    (hbytes : bval.value = .bytes bs) :
    (p < 0 ∨ 7 < p → ValidateAndConvert env edge su = .error (.permissionOutOfRange p)) ∧
    (¬(p < 0 ∨ 7 < p) →
      ValidateAndConvert env edge su = .ok { edge with valueType := .int, value := bs }) ∧
    (∀ msg, (VErr.permissionOutOfRange p) ≠ VErr.conversion msg) := by
  have hpath : ValidateAndConvert env edge su = convertAndCheck env edge .int := by
    simp [ValidateAndConvert, postingTypeID, isDeletePredicateEdge, TypeID.isScalar,
      hvid, hvt, hsu, hlang, hstar]
  refine ⟨?_, ?_, ?_⟩
  · intro hrange
    rw [hpath]
    simp [convertAndCheck, hvt, hconv, hmar, hbytes, hacl, hattr, hrange]
  · intro hrange
    rw [hpath]
    simp [convertAndCheck, hvt, hconv, hmar, hbytes, hacl, hattr, hrange]
  · intro msg
    simp

/-- Concrete conversion environment for the permission predicate: ACL on,
conversion yields the integer p, marshalling yields the byte "b". -/
def envPerm (p : Int) : WorkerEnv :=
  { parseAttr := id, aclEnabled := true
    convert := fun _ _ => .ok { tid := .int, value := .int p }
    marshal := fun _ => .ok { tid := .binary, value := .bytes "b" } }

/-- A permission-predicate edge with unset value type. -/
def edgePerm : DirectedEdge := { attr := "dgraph.rule.permission", entity := 1, value := "9" }

/-- The int schema of the permission predicate. -/
def suPerm : SchemaUpdate := { predicate := "dgraph.rule.permission", valueType := .int }

/-- Concrete instantiation of C9: converted value 9 is rejected with the
range error; converted value 7 is accepted. -/
theorem C9_permission_range_witness :
    ValidateAndConvert (envPerm 9) edgePerm suPerm = .error (.permissionOutOfRange 9) ∧
    ValidateAndConvert (envPerm 7) edgePerm suPerm =
      .ok { edgePerm with valueType := .int, value := "b" } := by
  constructor
  · exact (C9_permission_range (envPerm 9) edgePerm suPerm 9
      { tid := .binary, value := .bytes "b" } "b" rfl rfl rfl rfl (by decide) rfl rfl rfl
      rfl rfl).1 (by decide)
  · exact (C9_permission_range (envPerm 7) edgePerm suPerm 7
      { tid := .binary, value := .bytes "b" } "b" rfl rfl rfl rfl (by decide) rfl rfl rfl
      rfl rfl).2.1 (by decide)

/-- A successful unique type check returns its input unchanged. -/
theorem uniqueTypeCheck_ok (c s2 : SchemaUpdate) (h : uniqueTypeCheck c = .ok s2) :
    s2 = c := by
  unfold uniqueTypeCheck at h
  split at h
  · split at h
    · exact absurd h (by simp)
    · exact (Except.ok.inj h).symm
  · split at h
    · exact absurd h (by simp)
    · exact (Except.ok.inj h).symm
  · exact absurd h (by simp)

/-- A successful unique validation preserves the value type, list-ness and
predicate of the update (it may only force-enable upsert). -/
theorem validateUnique_preserves (prev s s2 : SchemaUpdate)
    (h : validateSchemaForUnique prev s = .ok s2) :
    s2.valueType = s.valueType ∧ s2.list = s.list ∧ s2.predicate = s.predicate := by
  unfold validateSchemaForUnique at h
  split at h
  · exact absurd h (by simp)
  split at h
  · exact absurd h (by simp)
  have h2 := uniqueTypeCheck_ok _ _ h
  subst h2
  by_cases hu : s.upsert = false <;> simp [hu]

/-- checkSchema rejects a schema update whose predicate already has a type
and data, when the update flips the uid/scalar shape, or drops list-ness
outside the password-to-password carve-out. -/
theorem checkSchema_shape_rejected (env : SchemaCheckEnv) (s : SchemaUpdate) (t : TypeID)
    (hprev : env.prevType = some t)
    (hdata : hasEdges s.predicate maxUint64 env.store = true)
    (hcond : t.isScalar ≠ s.valueType.isScalar ∨
      (t.isScalar = s.valueType.isScalar ∧ env.prevIsList = true ∧ s.list = false ∧
        ¬(t = .password ∧ s.valueType = .password))) :
    ∃ e, checkSchema env (some s) = .error e := by
  simp only [checkSchema]
  by_cases c1 : env.parseAttr s.predicate = ""
  · exact ⟨_, by rw [if_pos c1]⟩
  rw [if_neg c1]
  by_cases c2 : env.isInternalPred s.predicate = true
  · exact ⟨_, by rw [if_pos c2]⟩
  rw [if_neg c2]
  by_cases c3 : s.directive = .index ∧ hasTokenizerOrVectorIndexSpec s = false
  · exact ⟨_, by rw [if_pos c3]⟩
  rw [if_neg c3]
  by_cases c4 : hasTokenizerOrVectorIndexSpec s = true ∧ s.directive ≠ .index
  · exact ⟨_, by rw [if_pos c4]⟩
  rw [if_neg c4]
  by_cases c5 : s.valueType = .uid ∧ s.directive = .index
  · exact ⟨_, by rw [if_pos c5]⟩
  rw [if_neg c5]
  by_cases c6 : s.valueType ≠ .uid ∧ s.directive = .reverse
  · exact ⟨_, by rw [if_pos c6]⟩
  rw [if_neg c6]
  by_cases c7 : s.upsert = true ∧ s.tokenizer.isEmpty = true ∧ s.unique = false
  · exact ⟨_, by rw [if_pos c7]⟩
  rw [if_neg c7]
  cases hu : (if s.unique then validateSchemaForUnique env.prevSchema s else Except.ok s) with
  | error e0 => exact ⟨e0, rfl⟩
  | ok s2 =>
    have hfacts : s2.valueType = s.valueType ∧ s2.list = s.list ∧ s2.predicate = s.predicate := by
      by_cases hub : s.unique = true
      · rw [if_pos hub] at hu
        exact validateUnique_preserves _ _ _ hu
      · rw [if_neg hub] at hu
        rw [(Except.ok.inj hu).symm]
        exact ⟨rfl, rfl, rfl⟩
    obtain ⟨hvt, hlst, hpred⟩ := hfacts
    show ∃ e, checkSchemaPrevious env s2 = .error e
    unfold checkSchemaPrevious
    rw [hprev]
    show ∃ e, schemaShapeCheck env t s2 = .error e
    unfold schemaShapeCheck
    rcases hcond with hflip | ⟨hsame, hplist, hslist, hnotpw⟩
    · by_cases cpw : t.isScalar = true ∧ (t = .password ∨ s2.valueType = .password)
      · rw [if_pos cpw]
        have hne : t ≠ s2.valueType := by
          intro he
          rw [← he] at hvt
          exact hflip (by rw [← hvt])
        rw [if_pos hne]
        exact ⟨_, rfl⟩
      · rw [if_neg cpw]
        have hne2 : ¬(t.isScalar = s2.valueType.isScalar) := by
          rw [hvt]
          exact hflip
        rw [if_neg hne2]
        rw [if_pos (by rw [hpred]; exact hdata)]
        exact ⟨_, rfl⟩
    · by_cases cpw : t.isScalar = true ∧ (t = .password ∨ s2.valueType = .password)
      · rw [if_pos cpw]
        have hne : t ≠ s2.valueType := by
          intro he
          rcases cpw.2 with hp1 | hp2
          · exact hnotpw ⟨hp1, by rw [← hvt, ← he, hp1]⟩
          · exact hnotpw ⟨by rw [he, hp2], by rw [← hvt, hp2]⟩
        rw [if_pos hne]
        exact ⟨_, rfl⟩
      · rw [if_neg cpw]
        rw [if_pos (by rw [hvt]; exact hsame)]
        rw [if_pos ⟨by rw [hplist], by rw [hlst]; exact hslist, by rw [hpred]; exact hdata⟩]
        exact ⟨_, rfl⟩

/-- Characterization of the approximate scan: it reports data exactly when
some visible item of the predicate lacks the empty-posting bit. -/
theorem hasEdges_iff (a : String) (ts : Nat) (st : List StoreItem) :
    hasEdges a ts st = true ↔
      ∃ it ∈ st, it.attr = a ∧ it.version ≤ ts ∧ it.userMeta &&& bitEmptyPosting = 0 := by
  simp [hasEdges, List.any_eq_true, Bool.and_eq_true, beq_iff_eq, decide_eq_true_eq, and_assoc]

/-- The scan never inspects the actual posting content: posting lists
whose deltas sum to empty are counted as data whenever their user-meta
lacks the empty bit. -/
theorem hasEdges_ignores_content (a : String) (ts : Nat) (st : List StoreItem)
    (f : StoreItem → Bool) :
    hasEdges a ts (st.map fun it => { it with contentEmpty := f it }) = hasEdges a ts st := by
  simp only [hasEdges, List.any_map]
  rfl

/-- The previous schema of the password-carve-out counterexample: a
password-typed list predicate with data. -/
def envPw : SchemaCheckEnv :=
  { parseAttr := id, isInternalPred := fun _ => false, prevType := some .password
    prevIsList := true, prevSchema := {}
    store := [{ attr := "p", version := 1, userMeta := 0, contentEmpty := false }] }

/-- A password-typed non-list update for the same predicate. -/
def suPwNonList : SchemaUpdate := { predicate := "p", valueType := .password }

/-- C3 counterexample: a list-to-non-list schema change on a password
predicate with existing data is accepted — the password type-equality
carve-out returns before the list/data check runs, refuting the claim
that a list-to-non-list change with data is always rejected. -/
theorem C3_counterexample_password_list_drop :
    checkSchema envPw (some suPwNonList) = .ok () ∧
    hasEdges "p" maxUint64 envPw.store = true ∧
    envPw.prevIsList = true ∧ suPwNonList.list = false := by
  refine ⟨by decide, by decide, rfl, rfl⟩

/-- C3 (amended): for a predicate with an existing schema type and
existing data (as seen by the approximate scan), an update flipping the
uid/scalar shape is always rejected; an update dropping list-ness is
rejected unless both old and new types are password (that carve-out
accepts without consulting data); and the existing-data check is the
approximate non-empty-posting scan at the given timestamp, which never
inspects whether deltas sum to an empty posting list. -/
theorem C3_amended_shape_change_rejected (env : SchemaCheckEnv) (s : SchemaUpdate)
    (t : TypeID) (hprev : env.prevType = some t)
    (hdata : hasEdges s.predicate maxUint64 env.store = true) :
    (t.isScalar ≠ s.valueType.isScalar → ∃ e, checkSchema env (some s) = .error e) ∧
    (t.isScalar = s.valueType.isScalar → env.prevIsList = true → s.list = false →
      ¬(t = .password ∧ s.valueType = .password) →
      ∃ e, checkSchema env (some s) = .error e) ∧
    (∀ a ts st, hasEdges a ts st = true ↔
      ∃ it ∈ st, it.attr = a ∧ it.version ≤ ts ∧ it.userMeta &&& bitEmptyPosting = 0) ∧
    (∀ a ts st (f : StoreItem → Bool),
      hasEdges a ts (st.map fun it => { it with contentEmpty := f it }) = hasEdges a ts st) := by
  refine ⟨?_, ?_, hasEdges_iff, hasEdges_ignores_content⟩
  · intro hflip
    exact checkSchema_shape_rejected env s t hprev hdata (Or.inl hflip)
  · intro h1 h2 h3 h4
    exact checkSchema_shape_rejected env s t hprev hdata (Or.inr ⟨h1, h2, h3, h4⟩)

/-- The previous schema of the flip witness: a uid predicate with data. -/
def envFlip : SchemaCheckEnv :=
  { parseAttr := id, isInternalPred := fun _ => false, prevType := some .uid
    prevIsList := false, prevSchema := {}
    store := [{ attr := "q", version := 1, userMeta := 0, contentEmpty := false }] }

/-- A scalar update for the uid predicate of the flip witness. -/
def suFlip : SchemaUpdate := { predicate := "q", valueType := .string }

/-- Concrete instantiation of C3 (amended): changing a uid predicate with
data to a scalar type is rejected. -/
theorem C3_amended_shape_change_rejected_witness :
    ∃ e, checkSchema envFlip (some suFlip) = .error e :=
  (C3_amended_shape_change_rejected envFlip suFlip .uid rfl (by decide)).1 (by decide)

/-- The error slot after one aggregation step. -/
theorem aggStep_err (acc : TxnCtx × Option MErr) (r : Res) :
    (aggStep acc r).2 = match r.err with | some e => some e | none => acc.2 := rfl

/-- The keys after one aggregation step. -/
theorem aggStep_keys (acc : TxnCtx × Option MErr) (r : Res) :
    (aggStep acc r).1.keys =
      match r.ctx with | some c => acc.1.keys ++ c.keys | none => acc.1.keys := by
  cases hc : r.ctx <;> simp [aggStep, hc]

/-- The predicates after one aggregation step. -/
theorem aggStep_preds (acc : TxnCtx × Option MErr) (r : Res) :
    (aggStep acc r).1.preds =
      match r.ctx with | some c => acc.1.preds ++ c.preds | none => acc.1.preds := by
  cases hc : r.ctx <;> simp [aggStep, hc]

/-- A recorded error is never cleared by later aggregation steps. -/
theorem aggFold_err_stable (rs : List Res) :
    ∀ acc : TxnCtx × Option MErr, acc.2 ≠ none → (rs.foldl aggStep acc).2 ≠ none := by
  induction rs with
  | nil => exact fun acc h => h
  | cons r rs ih =>
    intro acc h
    rw [List.foldl_cons]
    apply ih
    rw [aggStep_err]
    cases hr : r.err with
    | some e => simp
    | none => exact h

/-- The aggregated error is either the starting one or the error of some
reply in the list. -/
theorem aggFold_err_mem (rs : List Res) :
    ∀ acc : TxnCtx × Option MErr,
      (rs.foldl aggStep acc).2 = acc.2 ∨
      ∃ r ∈ rs, r.err ≠ none ∧ (rs.foldl aggStep acc).2 = r.err := by
  induction rs with
  | nil => exact fun acc => Or.inl rfl
  | cons r rs ih =>
    intro acc
    rw [List.foldl_cons]
    rcases ih (aggStep acc r) with heq | ⟨r2, hmem, hne, heq⟩
    · rw [heq, aggStep_err]
      cases hr : r.err with
      | some e => exact Or.inr ⟨r, List.mem_cons_self r rs, by simp [hr], by rw [hr]⟩
      | none => exact Or.inl rfl
    · exact Or.inr ⟨r2, List.mem_cons_of_mem r hmem, hne, heq⟩

/-- Keys and predicates already aggregated are kept by later steps. -/
theorem aggFold_mono (rs : List Res) :
    ∀ acc : TxnCtx × Option MErr,
      acc.1.keys ⊆ (rs.foldl aggStep acc).1.keys ∧
      acc.1.preds ⊆ (rs.foldl aggStep acc).1.preds := by
  induction rs with
  | nil => exact fun acc => ⟨fun k h => h, fun q h => h⟩
  | cons r rs ih =>
    intro acc
    rw [List.foldl_cons]
    have hstep : acc.1.keys ⊆ (aggStep acc r).1.keys ∧
        acc.1.preds ⊆ (aggStep acc r).1.preds := by
      rw [aggStep_keys, aggStep_preds]
      cases r.ctx with
      | none => exact ⟨fun k h => h, fun q h => h⟩
      | some c => exact ⟨fun k h => List.mem_append_left _ h, fun q h => List.mem_append_left _ h⟩
    obtain ⟨h1, h2⟩ := ih (aggStep acc r)
    exact ⟨fun k h => h1 (hstep.1 h), fun q h => h2 (hstep.2 h)⟩

/-- Keys and predicates of any reply carrying a context land in the
aggregate. -/
theorem aggFold_ctx_mem (rs : List Res) :
    ∀ acc : TxnCtx × Option MErr, ∀ r ∈ rs, ∀ c, r.ctx = some c →
      c.keys ⊆ (rs.foldl aggStep acc).1.keys ∧
      c.preds ⊆ (rs.foldl aggStep acc).1.preds := by
  induction rs with
  | nil => exact fun acc r hmem => absurd hmem (List.not_mem_nil r)
  | cons r2 rs ih =>
    intro acc r hmem c hc
    rw [List.foldl_cons]
    rcases List.mem_cons.1 hmem with heq | htail
    · subst heq
      have hstep : c.keys ⊆ (aggStep acc r).1.keys ∧ c.preds ⊆ (aggStep acc r).1.preds := by
        rw [aggStep_keys, aggStep_preds, hc]
        exact ⟨fun k h => List.mem_append_right _ h, fun q h => List.mem_append_right _ h⟩
      obtain ⟨h1, h2⟩ := aggFold_mono rs (aggStep acc r)
      exact ⟨fun k h => h1 (hstep.1 h), fun q h => h2 (hstep.2 h)⟩
    · exact ih (aggStep acc r2) r htail c hc

/-- When some reply carries an error, the aggregate error is set. -/
theorem aggFold_err_of_mem (rs : List Res) :
    ∀ acc : TxnCtx × Option MErr, (∃ r ∈ rs, r.err ≠ none) →
      (rs.foldl aggStep acc).2 ≠ none := by
  induction rs with
  | nil =>
    intro acc h
    obtain ⟨r, hm, _⟩ := h
    exact absurd hm (List.not_mem_nil r)
  | cons r rs ih =>
    intro acc h
    rw [List.foldl_cons]
    rcases h with ⟨r0, hm, hne⟩
    rcases List.mem_cons.1 hm with heq | htail
    · subst heq
      apply aggFold_err_stable
      rw [aggStep_err]
      cases hr : r0.err with
      | some e => simp
      | none => exact absurd hr hne
    · exact ih (aggStep acc r) ⟨r0, htail, hne⟩

/-- C5: when any shard reply carries an error, the aggregate call returns
an error, and that error is the error of one of the failing replies; the
keys and predicates of every reply that succeeded (and of any reply that
reported a context) are still merged into the returned transaction
context. -/
theorem C5_partial_failure_aggregation (tctx : TxnCtx) (rs : List Res)
    (hfail : ∃ r ∈ rs, r.err ≠ none) :
    (aggregateResults tctx rs).2 ≠ none ∧
    (∃ r ∈ rs, r.err ≠ none ∧ (aggregateResults tctx rs).2 = r.err) ∧
    (∀ r ∈ rs, r.err = none → ∀ c, r.ctx = some c →
      c.keys ⊆ (aggregateResults tctx rs).1.keys ∧
      c.preds ⊆ (aggregateResults tctx rs).1.preds) := by
  have hne : (aggregateResults tctx rs).2 ≠ none :=
    aggFold_err_of_mem rs (tctx, none) hfail
  refine ⟨hne, ?_, ?_⟩
  · rcases aggFold_err_mem rs (tctx, none) with heq | hex
    · exact absurd heq hne
    · exact hex
  · intro r hmem _ c hc
    exact aggFold_ctx_mem rs (tctx, none) r hmem c hc

/-- Concrete instantiation of C5: one failed shard and one successful
shard — the aggregate error is set and the successful shard's key and
predicate are present in the returned context. -/
theorem C5_partial_failure_aggregation_witness :
    (aggregateResults {} [{ err := some (.other "net"), ctx := none },
        { err := none, ctx := some { keys := ["k"], preds := ["q"] } }]).2 ≠ none ∧
    "k" ∈ (aggregateResults {} [{ err := some (.other "net"), ctx := none },
        { err := none, ctx := some { keys := ["k"], preds := ["q"] } }]).1.keys := by
  have h := C5_partial_failure_aggregation {}
    [{ err := some (.other "net"), ctx := none },
     { err := none, ctx := some { keys := ["k"], preds := ["q"] } }]
    ⟨{ err := some (.other "net"), ctx := none }, by simp, by simp⟩
  refine ⟨h.1, ?_⟩
  exact (h.2.2 { err := none, ctx := some { keys := ["k"], preds := ["q"] } }
    (by simp) rfl { keys := ["k"], preds := ["q"] } rfl).1 (by simp)

/-- The edges of the partition of group g (empty when absent). -/
def edgesOf (mm : MutMap) (g : Nat) : List DirectedEdge :=
  ((mmGet mm g).map Mutations.edges).getD []

/-- The schema updates of the partition of group g. -/
def schemaOf (mm : MutMap) (g : Nat) : List SchemaUpdate :=
  ((mmGet mm g).map Mutations.schema).getD []

/-- The drop operation recorded in the partition of group g. -/
def dropOf (mm : MutMap) (g : Nat) : Nat :=
  ((mmGet mm g).map Mutations.dropOp).getD 0

/-- The type updates recorded in the partition of group g. -/
def typesOf (mm : MutMap) (g : Nat) : List TypeUpdate :=
  ((mmGet mm g).map Mutations.types).getD []

/-- Reading the key just written. -/
theorem mmGet_mmSet_self (mm : MutMap) (g : Nat) (mu : Mutations) :
    mmGet (mmSet mm g mu) g = some mu := by
  induction mm with
  | nil => simp [mmSet, mmGet]
  | cons p rest ih =>
    obtain ⟨g2, mu2⟩ := p
    by_cases h : g2 = g
    · simp [mmSet, mmGet, h]
    · simp [mmSet, mmGet, h, ih]

/-- Writing one key leaves the others unchanged. -/
theorem mmGet_mmSet_ne (mm : MutMap) (g g2 : Nat) (mu : Mutations) (h : g2 ≠ g) :
    mmGet (mmSet mm g mu) g2 = mmGet mm g2 := by
  induction mm with
  | nil => simp [mmSet, mmGet, Ne.symm h]
  | cons p rest ih =>
    obtain ⟨g3, mu3⟩ := p
    by_cases h3 : g3 = g
    · subst h3
      simp [mmSet, mmGet, Ne.symm h]
    · by_cases h2 : g3 = g2
      · simp [mmSet, mmGet, h3, h2, h]
      · simp [mmSet, mmGet, h3, h2, ih]

/-- The partition fetched (or freshly created) for a group has the
group's accumulated edges. -/
theorem getD_edges (mm : MutMap) (g : Nat) :
    ((mmGet mm g).getD { groupId := g }).edges = edgesOf mm g := by
  cases h : mmGet mm g <;> simp [edgesOf, h]

/-- Likewise for its schema updates. -/
theorem getD_schema (mm : MutMap) (g : Nat) :
    ((mmGet mm g).getD { groupId := g }).schema = schemaOf mm g := by
  cases h : mmGet mm g <;> simp [schemaOf, h]

/-- Likewise for its drop operation. -/
theorem getD_dropOp (mm : MutMap) (g : Nat) :
    ((mmGet mm g).getD { groupId := g }).dropOp = dropOf mm g := by
  cases h : mmGet mm g <;> simp [dropOf, h]

/-- Likewise for its type updates. -/
theorem getD_types (mm : MutMap) (g : Nat) :
    ((mmGet mm g).getD { groupId := g }).types = typesOf mm g := by
  cases h : mmGet mm g <;> simp [typesOf, h]

/-- The edge loop appends every edge to the partition of the group that
owns its attribute and touches nothing else. -/
theorem addEdgesLoop_char (env : RouterEnv) (meta : Option Nat) (es : List DirectedEdge) :
    ∀ mm0 mm : MutMap, addEdgesLoop env meta mm0 es = .ok mm →
      ∀ g, edgesOf mm g = edgesOf mm0 g ++
          es.filter (fun e => decide (env.belongsTo e.attr = .ok g)) ∧
        schemaOf mm g = schemaOf mm0 g ∧ dropOf mm g = dropOf mm0 g ∧
        typesOf mm g = typesOf mm0 g := by
  induction es with
  | nil =>
    intro mm0 mm h g
    have hmm : mm0 = mm := by simpa [addEdgesLoop] using h
    subst hmm
    simp
  | cons e es ih =>
    intro mm0 mm h g
    simp only [addEdgesLoop] at h
    cases hb : env.belongsTo e.attr with
    | error err => simp [addEdgeToMap, hb] at h
    | ok gid =>
      simp only [addEdgeToMap, hb] at h
      obtain ⟨ih1, ih2, ih3, ih4⟩ := ih _ mm h g
      rw [List.filter_cons]
      by_cases hg : gid = g
      · subst hg
        refine ⟨?_, ?_, ?_, ?_⟩
        · rw [ih1, edgesOf, mmGet_mmSet_self]
          simp [getD_edges, hb, List.append_assoc]
        · rw [ih2, schemaOf, mmGet_mmSet_self]
          simp [getD_schema]
        · rw [ih3, dropOf, mmGet_mmSet_self]
          simp [getD_dropOp]
        · rw [ih4, typesOf, mmGet_mmSet_self]
          simp [getD_types]
      · have hne : g ≠ gid := fun hh => hg hh.symm
        refine ⟨?_, ?_, ?_, ?_⟩
        · rw [ih1, edgesOf, mmGet_mmSet_ne _ _ _ _ hne]
          simp [hb, hg, edgesOf]
        · rw [ih2, schemaOf, mmGet_mmSet_ne _ _ _ _ hne]
          rfl
        · rw [ih3, dropOf, mmGet_mmSet_ne _ _ _ _ hne]
          rfl
        · rw [ih4, typesOf, mmGet_mmSet_ne _ _ _ _ hne]
          rfl

/-- The schema loop appends every schema update to the partition of the
group that owns its predicate and touches nothing else. -/
theorem addSchemaLoop_char (env : RouterEnv) (ss : List SchemaUpdate) :
    ∀ mm0 mm : MutMap, addSchemaLoop env mm0 ss = .ok mm →
      ∀ g, schemaOf mm g = schemaOf mm0 g ++
          ss.filter (fun s => decide (env.belongsTo s.predicate = .ok g)) ∧
        edgesOf mm g = edgesOf mm0 g ∧ dropOf mm g = dropOf mm0 g ∧
        typesOf mm g = typesOf mm0 g := by
  induction ss with
  | nil =>
    intro mm0 mm h g
    have hmm : mm0 = mm := by simpa [addSchemaLoop] using h
    subst hmm
    simp
  | cons s ss ih =>
    intro mm0 mm h g
    simp only [addSchemaLoop] at h
    cases hb : env.belongsTo s.predicate with
    | error err => simp [addSchemaToMap, hb] at h
    | ok gid =>
      simp only [addSchemaToMap, hb] at h
      obtain ⟨ih1, ih2, ih3, ih4⟩ := ih _ mm h g
      rw [List.filter_cons]
      by_cases hg : gid = g
      · subst hg
        refine ⟨?_, ?_, ?_, ?_⟩
        · rw [ih1, schemaOf, mmGet_mmSet_self]
          simp [getD_schema, hb, List.append_assoc]
        · rw [ih2, edgesOf, mmGet_mmSet_self]
          simp [getD_edges]
        · rw [ih3, dropOf, mmGet_mmSet_self]
          simp [getD_dropOp]
        · rw [ih4, typesOf, mmGet_mmSet_self]
          simp [getD_types]
      · have hne : g ≠ gid := fun hh => hg hh.symm
        refine ⟨?_, ?_, ?_, ?_⟩
        · rw [ih1, schemaOf, mmGet_mmSet_ne _ _ _ _ hne]
          simp [hb, hg, schemaOf]
        · rw [ih2, edgesOf, mmGet_mmSet_ne _ _ _ _ hne]
          rfl
        · rw [ih3, dropOf, mmGet_mmSet_ne _ _ _ _ hne]
          rfl
        · rw [ih4, typesOf, mmGet_mmSet_ne _ _ _ _ hne]
          rfl

/-- The drop step keeps every partition's edges, schema and types. -/
theorem addDrop_accessors (src : Mutations) (mm : MutMap) (g g2 : Nat) :
    edgesOf (addDropToMap src mm g) g2 = edgesOf mm g2 ∧
    schemaOf (addDropToMap src mm g) g2 = schemaOf mm g2 ∧
    typesOf (addDropToMap src mm g) g2 = typesOf mm g2 := by
  by_cases h : g = g2
  · subst h
    refine ⟨?_, ?_, ?_⟩
    · rw [edgesOf, addDropToMap, mmGet_mmSet_self]
      simp [getD_edges]
    · rw [schemaOf, addDropToMap, mmGet_mmSet_self]
      simp [getD_schema]
    · rw [typesOf, addDropToMap, mmGet_mmSet_self]
      simp [getD_types]
  · have hne : g2 ≠ g := fun hh => h hh.symm
    refine ⟨?_, ?_, ?_⟩
    · rw [edgesOf, addDropToMap, mmGet_mmSet_ne _ _ _ _ hne]
      rfl
    · rw [schemaOf, addDropToMap, mmGet_mmSet_ne _ _ _ _ hne]
      rfl
    · rw [typesOf, addDropToMap, mmGet_mmSet_ne _ _ _ _ hne]
      rfl

/-- The types step keeps every partition's edges, schema and drop
operation. -/
theorem addTypes_accessors (src : Mutations) (mm : MutMap) (g g2 : Nat) :
    edgesOf (addTypesToMap src mm g) g2 = edgesOf mm g2 ∧
    schemaOf (addTypesToMap src mm g) g2 = schemaOf mm g2 ∧
    dropOf (addTypesToMap src mm g) g2 = dropOf mm g2 := by
  by_cases h : g = g2
  · subst h
    refine ⟨?_, ?_, ?_⟩
    · rw [edgesOf, addTypesToMap, mmGet_mmSet_self]
      simp [getD_edges]
    · rw [schemaOf, addTypesToMap, mmGet_mmSet_self]
      simp [getD_schema]
    · rw [dropOf, addTypesToMap, mmGet_mmSet_self]
      simp [getD_dropOp]
  · have hne : g2 ≠ g := fun hh => h hh.symm
    refine ⟨?_, ?_, ?_⟩
    · rw [edgesOf, addTypesToMap, mmGet_mmSet_ne _ _ _ _ hne]
      rfl
    · rw [schemaOf, addTypesToMap, mmGet_mmSet_ne _ _ _ _ hne]
      rfl
    · rw [dropOf, addTypesToMap, mmGet_mmSet_ne _ _ _ _ hne]
      rfl

/-- The drop loop replicates the drop operation into every listed group's
partition and touches nothing else. -/
theorem dropFold_char (src : Mutations) (gs : List Nat) :
    ∀ mm0 : MutMap,
      (∀ g, edgesOf (gs.foldl (addDropToMap src) mm0) g = edgesOf mm0 g) ∧
      (∀ g, schemaOf (gs.foldl (addDropToMap src) mm0) g = schemaOf mm0 g) ∧
      (∀ g, typesOf (gs.foldl (addDropToMap src) mm0) g = typesOf mm0 g) ∧
      (∀ g, g ∈ gs → dropOf (gs.foldl (addDropToMap src) mm0) g = src.dropOp ∧
        (mmGet (gs.foldl (addDropToMap src) mm0) g).isSome = true) ∧
      (∀ g, g ∉ gs → mmGet (gs.foldl (addDropToMap src) mm0) g = mmGet mm0 g) := by
  induction gs with
  | nil =>
    intro mm0
    refine ⟨fun g => rfl, fun g => rfl, fun g => rfl, ?_, fun g _ => rfl⟩
    intro g hmem
    exact absurd hmem (List.not_mem_nil g)
  | cons g1 gs ih =>
    intro mm0
    rw [List.foldl_cons]
    obtain ⟨ihe, ihs, iht, ihmem, ihnot⟩ := ih (addDropToMap src mm0 g1)
    refine ⟨?_, ?_, ?_, ?_, ?_⟩
    · intro g
      rw [ihe g, (addDrop_accessors src mm0 g1 g).1]
    · intro g
      rw [ihs g, (addDrop_accessors src mm0 g1 g).2.1]
    · intro g
      rw [iht g, (addDrop_accessors src mm0 g1 g).2.2]
    · intro g hmem
      by_cases hgs : g ∈ gs
      · exact ihmem g hgs
      · have hg1 : g = g1 := by
          rcases List.mem_cons.1 hmem with h | h
          · exact h
          · exact absurd h hgs
        subst hg1
        constructor
        · rw [dropOf, ihnot g hgs]
          simp [addDropToMap, mmGet_mmSet_self]
        · rw [ihnot g hgs]
          simp [addDropToMap, mmGet_mmSet_self]
    · intro g hmem
      have hg1 : g ≠ g1 := fun h => hmem (h ▸ List.mem_cons_self g1 gs)
      have hgs : g ∉ gs := fun h => hmem (List.mem_cons_of_mem g1 h)
      rw [ihnot g hgs]
      simp [addDropToMap, mmGet_mmSet_ne _ _ _ _ hg1]

/-- The types loop replicates the type updates into every listed group's
partition and touches nothing else. -/
theorem typesFold_char (src : Mutations) (gs : List Nat) :
    ∀ mm0 : MutMap,
      (∀ g, edgesOf (gs.foldl (addTypesToMap src) mm0) g = edgesOf mm0 g) ∧
      (∀ g, schemaOf (gs.foldl (addTypesToMap src) mm0) g = schemaOf mm0 g) ∧
      (∀ g, dropOf (gs.foldl (addTypesToMap src) mm0) g = dropOf mm0 g) ∧
      (∀ g, g ∈ gs → typesOf (gs.foldl (addTypesToMap src) mm0) g = src.types ∧
        (mmGet (gs.foldl (addTypesToMap src) mm0) g).isSome = true) ∧
      (∀ g, g ∉ gs → mmGet (gs.foldl (addTypesToMap src) mm0) g = mmGet mm0 g) := by
  induction gs with
  | nil =>
    intro mm0
    refine ⟨fun g => rfl, fun g => rfl, fun g => rfl, ?_, fun g _ => rfl⟩
    intro g hmem
    exact absurd hmem (List.not_mem_nil g)
  | cons g1 gs ih =>
    intro mm0
    rw [List.foldl_cons]
    obtain ⟨ihe, ihs, ihd, ihmem, ihnot⟩ := ih (addTypesToMap src mm0 g1)
    refine ⟨?_, ?_, ?_, ?_, ?_⟩
    · intro g
      rw [ihe g, (addTypes_accessors src mm0 g1 g).1]
    · intro g
      rw [ihs g, (addTypes_accessors src mm0 g1 g).2.1]
    · intro g
      rw [ihd g, (addTypes_accessors src mm0 g1 g).2.2]
    · intro g hmem
      by_cases hgs : g ∈ gs
      · exact ihmem g hgs
      · have hg1 : g = g1 := by
          rcases List.mem_cons.1 hmem with h | h
          · exact h
          · exact absurd h hgs
        subst hg1
        constructor
        · rw [typesOf, ihnot g hgs]
          simp [addTypesToMap, mmGet_mmSet_self]
        · rw [ihnot g hgs]
          simp [addTypesToMap, mmGet_mmSet_self]
    · intro g hmem
      have hg1 : g ≠ g1 := fun h => hmem (h ▸ List.mem_cons_self g1 gs)
      have hgs : g ∉ gs := fun h => hmem (List.mem_cons_of_mem g1 h)
      rw [ihnot g hgs]
      simp [addTypesToMap, mmGet_mmSet_ne _ _ _ _ hg1]

/-- The full partitioning characterization of populateMutationMap: each
group's partition carries exactly the edges and schema updates the group
owns, and — when present — the batch's drop operation and type updates in
every known group's partition. -/
theorem populate_char (env : RouterEnv) (src : Mutations) (mm : MutMap)
    (h : populateMutationMap env src = .ok mm) :
    (∀ g, edgesOf mm g =
      src.edges.filter (fun e => decide (env.belongsTo e.attr = .ok g))) ∧
    (∀ g, schemaOf mm g =
      src.schema.filter (fun s => decide (env.belongsTo s.predicate = .ok g))) ∧
    (src.dropOp > 0 → ∀ g ∈ env.knownGroups,
      dropOf mm g = src.dropOp ∧ (mmGet mm g).isSome = true) ∧
    (src.types ≠ [] → ∀ g ∈ env.knownGroups,
      typesOf mm g = src.types ∧ (mmGet mm g).isSome = true) := by
  unfold populateMutationMap at h
  cases h1 : addEdgesLoop env src.metadata [] src.edges with
  | error e =>
    rw [h1] at h
    exact absurd h (by simp)
  | ok mmE =>
    rw [h1] at h
    have h3 : (match addSchemaLoop env mmE src.schema with
        | .error e => (.error e : Except MErr MutMap)
        | .ok mm2 => .ok (applyTypesAll env src (applyDropAll env src mm2))) = .ok mm := h
    cases h2 : addSchemaLoop env mmE src.schema with
    | error e =>
      rw [h2] at h3
      exact absurd h3 (by simp)
    | ok mmS =>
      rw [h2] at h3
      have hmm : applyTypesAll env src (applyDropAll env src mmS) = mm := Except.ok.inj h3
      subst hmm
      have hE := fun g => addEdgesLoop_char env src.metadata src.edges [] mmE h1 g
      have hS := fun g => addSchemaLoop_char env src.schema mmE mmS h2 g
      have hedgesS : ∀ g, edgesOf mmS g =
          src.edges.filter (fun e => decide (env.belongsTo e.attr = .ok g)) := by
        intro g
        rw [(hS g).2.1, (hE g).1]
        simp [edgesOf, mmGet]
      have hschemaS : ∀ g, schemaOf mmS g =
          src.schema.filter (fun s => decide (env.belongsTo s.predicate = .ok g)) := by
        intro g
        rw [(hS g).1, (hE g).2.1]
        simp [schemaOf, mmGet]
      refine ⟨?_, ?_, ?_, ?_⟩
      · intro g
        have hd : edgesOf (applyDropAll env src mmS) g = edgesOf mmS g := by
          unfold applyDropAll
          split
          · exact (dropFold_char src env.knownGroups mmS).1 g
          · rfl
        have ht : edgesOf (applyTypesAll env src (applyDropAll env src mmS)) g =
            edgesOf (applyDropAll env src mmS) g := by
          unfold applyTypesAll
          split
          · exact (typesFold_char src env.knownGroups (applyDropAll env src mmS)).1 g
          · rfl
        rw [ht, hd, hedgesS g]
      · intro g
        have hd : schemaOf (applyDropAll env src mmS) g = schemaOf mmS g := by
          unfold applyDropAll
          split
          · exact (dropFold_char src env.knownGroups mmS).2.1 g
          · rfl
        have ht : schemaOf (applyTypesAll env src (applyDropAll env src mmS)) g =
            schemaOf (applyDropAll env src mmS) g := by
          unfold applyTypesAll
          split
          · exact (typesFold_char src env.knownGroups (applyDropAll env src mmS)).2.1 g
          · rfl
        rw [ht, hd, hschemaS g]
      · intro hdrop g hg
        have hDall : applyDropAll env src mmS =
            env.knownGroups.foldl (addDropToMap src) mmS := by
          unfold applyDropAll
          rw [if_pos hdrop]
        have hmemD := (dropFold_char src env.knownGroups mmS).2.2.2.1 g hg
        rw [← hDall] at hmemD
        by_cases htys : src.types ≠ []
        · have hTall : applyTypesAll env src (applyDropAll env src mmS) =
              env.knownGroups.foldl (addTypesToMap src) (applyDropAll env src mmS) := by
            unfold applyTypesAll
            rw [if_pos htys]
          rw [hTall]
          constructor
          · rw [(typesFold_char src env.knownGroups (applyDropAll env src mmS)).2.2.1 g]
            exact hmemD.1
          · exact ((typesFold_char src env.knownGroups
              (applyDropAll env src mmS)).2.2.2.1 g hg).2
        · have hTall : applyTypesAll env src (applyDropAll env src mmS) =
              applyDropAll env src mmS := by
            unfold applyTypesAll
            rw [if_neg htys]
          rw [hTall]
          exact hmemD
      · intro htys g hg
        have hTall : applyTypesAll env src (applyDropAll env src mmS) =
            env.knownGroups.foldl (addTypesToMap src) (applyDropAll env src mmS) := by
          unfold applyTypesAll
          rw [if_pos htys]
        rw [hTall]
        exact (typesFold_char src env.knownGroups
          (applyDropAll env src mmS)).2.2.2.1 g hg

/-- C7: populateMutationMap places each edge and each schema update
exactly in the partition of the single group owning its predicate (each
partition's content is the filter of the batch by ownership), while a
drop operation and type updates are replicated into the partition of
every known group. -/
theorem C7_partition_by_owner (env : RouterEnv) (src : Mutations) (mm : MutMap)
    (h : populateMutationMap env src = .ok mm) :
    (∀ g, edgesOf mm g =
      src.edges.filter (fun e => decide (env.belongsTo e.attr = .ok g))) ∧
    (∀ g, schemaOf mm g =
      src.schema.filter (fun s => decide (env.belongsTo s.predicate = .ok g))) ∧
    (src.dropOp > 0 → ∀ g ∈ env.knownGroups,
      dropOf mm g = src.dropOp ∧ (mmGet mm g).isSome = true) ∧
    (src.types ≠ [] → ∀ g ∈ env.knownGroups,
      typesOf mm g = src.types ∧ (mmGet mm g).isSome = true) :=
  populate_char env src mm h

/-- A shard-ownership environment with two groups. -/
def envRoute : RouterEnv :=
  { belongsTo := fun a => if a = "p" then .ok 1 else .ok 2
    knownGroups := [1, 2], verifyTypes := fun _ => none }

/-- An edge owned by group 1. -/
def edgeP : DirectedEdge := { attr := "p", entity := 1, value := "v" }

/-- An edge owned by group 2. -/
def edgeQ : DirectedEdge := { attr := "q", entity := 2, value := "w" }

/-- A batch with two edges on different groups, one schema update, a drop
operation and one type update. -/
def srcRoute : Mutations :=
  { edges := [edgeP, edgeQ], schema := [{ predicate := "p" }]
    types := [{ typeName := "T" }], dropOp := 1 }

/-- Concrete instantiation of C7: the two edges land in their owning
groups' partitions only, the drop operation and the type update are
replicated to both known groups. -/
theorem C7_partition_by_owner_witness :
    ∃ mm, populateMutationMap envRoute srcRoute = .ok mm ∧
      edgesOf mm 1 = [edgeP] ∧ edgesOf mm 2 = [edgeQ] ∧ schemaOf mm 2 = [] ∧
      dropOf mm 2 = 1 ∧ typesOf mm 1 = [{ typeName := "T" }] := by
  refine ⟨_, rfl, ?_, ?_, ?_, ?_, ?_⟩
  · rw [(C7_partition_by_owner envRoute srcRoute _ rfl).1 1]
    decide
  · rw [(C7_partition_by_owner envRoute srcRoute _ rfl).1 2]
    decide
  · rw [(C7_partition_by_owner envRoute srcRoute _ rfl).2.1 2]
    decide
  · exact ((C7_partition_by_owner envRoute srcRoute _ rfl).2.2.1 (by decide) 2
      (by decide)).1
  · exact ((C7_partition_by_owner envRoute srcRoute _ rfl).2.2.2 (by decide) 1
      (by decide)).1

/-- A non-empty partition of edges means the group has an entry. -/
theorem isSome_of_edgesOf_ne (mm : MutMap) (g : Nat) (h : edgesOf mm g ≠ []) :
    (mmGet mm g).isSome = true := by
  cases hm : mmGet mm g with
  | none => exact absurd (by simp [edgesOf, hm]) h
  | some mu => rfl

/-- A non-empty partition of schema updates means the group has an entry. -/
theorem isSome_of_schemaOf_ne (mm : MutMap) (g : Nat) (h : schemaOf mm g ≠ []) :
    (mmGet mm g).isSome = true := by
  cases hm : mmGet mm g with
  | none => exact absurd (by simp [schemaOf, hm]) h
  | some mu => rfl

/-- A group with an entry is seen by the dispatch loop's scan. -/
theorem mmAny_of_mmGet (mm : MutMap) (g : Nat)
    (h : (mmGet mm g).isSome = true) : mm.any (fun p => p.1 == g) = true := by
  induction mm with
  | nil => simp [mmGet] at h
  | cons p rest ih =>
    obtain ⟨g2, mu2⟩ := p
    by_cases hg : g2 = g
    · simp [List.any_cons, hg]
    · rw [mmGet, if_neg hg] at h
      simp [List.any_cons, ih h]

/-- C6: when any edge or schema entry of the batch resolves to the
sentinel group 0, MutateOverNetwork fails fast: it returns the untouched
transaction context together with the NonExistentTablet error, unchanged
and without dispatching or retrying. -/
theorem C6_nonexistent_tablet_fail_fast (env : RouterEnv)
    (responder : Nat → Mutations → Res) (m : Mutations) (mm : MutMap)
    (hv : env.verifyTypes m = none)
    (hmm : populateMutationMap env m = .ok mm)
    (h0 : (∃ e ∈ m.edges, env.belongsTo e.attr = .ok 0) ∨
          (∃ s ∈ m.schema, env.belongsTo s.predicate = .ok 0)) :
    MutateOverNetwork env responder m =
      ({ startTs := m.startTs }, some .nonExistentTablet) := by
  have hch := populate_char env m mm hmm
  have hsome : (mmGet mm 0).isSome = true := by
    rcases h0 with ⟨e, hmem, hb⟩ | ⟨s, hmem, hb⟩
    · apply isSome_of_edgesOf_ne
      rw [hch.1 0]
      intro hnil
      have hin : e ∈ m.edges.filter
          (fun e => decide (env.belongsTo e.attr = .ok 0)) :=
        List.mem_filter.2 ⟨hmem, by simp [hb]⟩
      rw [hnil] at hin
      exact absurd hin (List.not_mem_nil e)
    · apply isSome_of_schemaOf_ne
      rw [hch.2.1 0]
      intro hnil
      have hin : s ∈ m.schema.filter
          (fun s => decide (env.belongsTo s.predicate = .ok 0)) :=
        List.mem_filter.2 ⟨hmem, by simp [hb]⟩
      rw [hnil] at hin
      exact absurd hin (List.not_mem_nil s)
  have hany := mmAny_of_mmGet mm 0 hsome
  simp [MutateOverNetwork, hv, hmm, hany]

/-- An ownership environment where every predicate resolves to the
sentinel group 0. -/
def envRoute0 : RouterEnv :=
  { belongsTo := fun _ => .ok 0, knownGroups := [0], verifyTypes := fun _ => none }

/-- A responder returning empty replies. -/
def respNone : Nat → Mutations → Res := fun _ _ => {}

/-- A batch with one edge, routed to group 0. -/
def srcZero : Mutations := { startTs := 5, edges := [edgeP] }

/-- Concrete instantiation of C6: a batch whose edge resolves to group 0
returns the NonExistentTablet error with the untouched context. -/
theorem C6_nonexistent_tablet_fail_fast_witness :
    MutateOverNetwork envRoute0 respNone srcZero =
      ({ startTs := 5 }, some .nonExistentTablet) :=
  C6_nonexistent_tablet_fail_fast envRoute0 respNone srcZero _ rfl rfl
    (Or.inl ⟨edgeP, by decide, rfl⟩)
